import Mathlib

/-!
Verification of the CCRemote daemon against its specification.

The TypeScript sources are shallowly embedded: pure fragments become Lean
functions over `String` / `List Char`; stateful fragments become explicit
state-passing step functions; filesystem and tmux interactions become
oracle parameters supplying the values the external calls would return;
fallible code returns `Option` / `Except`.
-/

namespace CCRemote

/- ### Generic helpers mirroring JavaScript string semantics -/

/-- JS `hay.includes(needle)` at the character-list level. -/
def containsSub (needle hay : List Char) : Bool :=
  hay.tails.any (fun t => needle.isPrefixOf t)

/-- Lower-case every character (ASCII folding; the regex patterns involved
are all ASCII, so this models the `i` regex flag). -/
def lowChars (l : List Char) : List Char := l.map Char.toLower

/-- Case-insensitive containment: `needle` is given already lower-case. -/
def icontainsL (needle : String) (hay : List Char) : Bool :=
  containsSub needle.data (lowChars hay)

/-- Whitespace class used by JS `trim`, `trimEnd` and the regex class
`\s` (restricted to the ASCII members, the only ones arising here). -/
def isJsWs (c : Char) : Bool :=
  c = ' ' || c = '\t' || c = '\n' || c = '\r' || c = '\x0b' || c = '\x0c'

/-- JS `trimEnd` on a character list. -/
def trimEndL (l : List Char) : List Char :=
  (l.reverse.dropWhile isJsWs).reverse

/-- JS `trim` on a character list. -/
def trimL (l : List Char) : List Char :=
  (l.dropWhile isJsWs).reverse.dropWhile isJsWs |>.reverse

/-- Helper for `splitOnChar`: returns the chunk before the first separator
and the list of the remaining chunks. -/
def splitAux (c : Char) : List Char → List Char × List (List Char)
  | [] => ([], [])
  | x :: xs =>
    let r := splitAux c xs
    if x = c then ([], r.1 :: r.2) else (x :: r.1, r.2)

/-- JS `s.split(c)` for a one-character separator. -/
def splitOnChar (c : Char) (l : List Char) : List (List Char) :=
  (splitAux c l).1 :: (splitAux c l).2

/-- JS `parts.join(c)` for a one-character separator. -/
def joinWithChar (c : Char) : List (List Char) → List Char
  | [] => []
  | [x] => x
  | x :: y :: xs => x ++ c :: joinWithChar c (y :: xs)

/-- JS `s.replace(pat, rep)` with a plain-string pattern: replaces the
first occurrence only. -/
def replaceFirst (pat rep : List Char) : List Char → List Char
  | [] => []
  | x :: xs =>
    if pat.isPrefixOf (x :: xs) then rep ++ (x :: xs).drop pat.length
    else x :: replaceFirst pat rep xs

/-- Matches regex `a.*b` (with `a`, `b` literal and newline-free) inside a
chunk when `minGap = 0`, and `a.+b` when `minGap = 1`: an occurrence of
`a`, then at least `minGap` non-newline characters, then `b`, all on one
line. Both `a` and the scanned text are expected pre-lower-cased by the
caller when the regex carries the `i` flag. -/
def sepMatch (a b : List Char) (minGap : Nat) (s : List Char) : Bool :=
  s.tails.any fun t =>
    a.isPrefixOf t &&
      containsSub b ((((t.drop a.length).takeWhile (· ≠ '\n'))).drop minGap)

/- ### OutputParser (src/packages/daemon/src/session/OutputParser.ts) -/

/-- The `InputType` union of the shared protocol types. -/
inductive InputType where
  | confirmation
  | selection
  | open_question
deriving DecidableEq, Repr

/-- The `CONTEXT_LIMIT_PATTERNS` array: a chunk matches when any of the
five case-insensitive regexes fires. -/
def matchContextLimit (data : String) : Bool :=
  let l := lowChars data.data
  containsSub "context window".data l || containsSub "context limit".data l ||
  containsSub "too long".data l ||
  sepMatch "maximum".data "token".data 0 l ||
  containsSub "conversation is too long".data l ||
  sepMatch "context".data "exceeded".data 0 l

/-- The ten spinner code points of the `WORKING_PATTERNS` array. -/
def spinnerChars : List Char := ['⠋', '⠙', '⠹', '⠸', '⠼', '⠴', '⠦', '⠧', '⠇', '⠏']

/-- The `WORKING_PATTERNS` array: verb-ING indicators plus the braille
spinner characters. -/
def matchWorking (data : String) : Bool :=
  let l := lowChars data.data
  containsSub "thinking...".data l ||
  containsSub "reading file".data l ||
  containsSub "writing file".data l ||
  containsSub "running command".data l ||
  containsSub "searching".data l ||
  containsSub "analyzing".data l ||
  containsSub "editing".data l ||
  containsSub "creating".data l ||
  data.data.any (fun c => spinnerChars.contains c)

/-- Regex `\[\d+\]`: a literal bracket, one or more digits, a closing
bracket. -/
def bracketNumMatch (s : List Char) : Bool :=
  s.tails.any fun t =>
    match t with
    | '[' :: rest =>
      let ds := rest.takeWhile Char.isDigit
      decide (ds ≠ []) && ((rest.drop ds.length).head? == some ']')
    | _ => false

/-- Regex `\?\s*$` under the `m` flag: a question mark whose first
following non-space-like character (where space-like is `\s` minus the
newline itself) is a newline or the end of the chunk. -/
def questionEndMatch (s : List Char) : Bool :=
  s.tails.any fun t =>
    match t with
    | '?' :: rest =>
      let r := rest.dropWhile (fun c => isJsWs c && c ≠ '\n')
      r.isEmpty || (r.head? == some '\n')
    | _ => false

/-- The ordered `INPUT_PATTERNS` array paired with the `InputType` each
pattern carries, in source order. -/
def inputPatternList : List ((List Char → Bool) × InputType) :=
  [ (fun l => icontainsL "do you want to proceed?" l ||
      icontainsL "do you want to continue?" l ||
      icontainsL "do you want to apply?" l ||
      icontainsL "do you want to make these changes?" l, InputType.confirmation),
    (fun l => icontainsL "(y/n)" l, InputType.confirmation),
    (fun l => icontainsL "(y/n)" l, InputType.confirmation),
    (fun l => icontainsL "[y/n]" l, InputType.confirmation),
    (fun l => icontainsL "[yes/no]" l, InputType.confirmation),
    (fun l => icontainsL "[y/n]" l, InputType.confirmation),
    (fun l => sepMatch "allow ".data " to run".data 1 (lowChars l), InputType.confirmation),
    (fun l => icontainsL "press enter to run" l || icontainsL "approve" l ||
      icontainsL "reject" l || icontainsL "edit" l, InputType.confirmation),
    (fun l => icontainsL "choose an option" l, InputType.selection),
    (fun l => sepMatch "select ".data ":".data 1 (lowChars l), InputType.selection),
    (fun l => bracketNumMatch l, InputType.selection),
    (fun l => questionEndMatch l, InputType.open_question) ]

/-- The classification loop over `INPUT_PATTERNS`: the type attached to
the first matching pattern, if any. -/
def findInputType (data : List Char) : Option InputType :=
  (inputPatternList.find? (fun pt => pt.1 data)).map (·.2)

/-- Is a line one that `extractQuestion` accepts: it contains a question
mark, or matches `\(y\/n\)` or `\[Y\/n\]` case-insensitively. -/
def isQuestionLine (l : List Char) : Bool :=
  l.contains '?' || icontainsL "(y/n)" l || icontainsL "[y/n]" l

/-- `OutputParser.extractQuestion`: the last non-blank line that looks
like a question, else the last non-blank line, else the whole chunk,
trimmed. -/
def extractQuestion (data : String) : String :=
  let lines := (splitOnChar '\n' data.data).filter (fun l => trimL l ≠ [])
  match lines.reverse.find? isQuestionLine with
  | some l => ⟨trimL l⟩
  | none =>
    match lines.getLast? with
    | some l => ⟨trimL l⟩
    | none => ⟨trimL data.data⟩

/-- One global-regex step of `extractOptions`: the captures of
`\[(\d+)\]\s*(.+)/g`, each trimmed, scanning left to right and resuming
after each whole match. -/
def extractOptions (l : List Char) : List (List Char) :=
  match l with
  | [] => []
  | c :: rest =>
    if c = '[' then
      let ds := rest.takeWhile Char.isDigit
      let after := rest.drop ds.length
      if ds ≠ [] ∧ after.head? = some ']' then
        let afterBr := after.drop 1
        let ws := afterBr.takeWhile isJsWs
        let body := (afterBr.drop ws.length).takeWhile (· ≠ '\n')
        if body ≠ [] then
          trimL body :: extractOptions ((afterBr.drop ws.length).drop body.length)
        else extractOptions rest
      else extractOptions rest
    else extractOptions rest
termination_by l.length
decreasing_by
  all_goals simp_all [List.length_drop]
  all_goals omega

/-- The `options` field computed inside `feed`: only selection prompts
get options, and an empty extraction becomes `undefined`. -/
def optionsFor (ty : InputType) (data : String) : Option (List String) :=
  if ty = InputType.selection then
    let os := (extractOptions data.data).map (fun l => (⟨l⟩ : String))
    if os = [] then none else some os
  else none

/-- `MAX_BUFFER_SIZE` of the parser. -/
def MAX_BUFFER_SIZE : Nat := 10000

/-- The mutable state of `OutputParser` relevant to classification: the
rolling context buffer. (The idle timer is real-time behaviour and is not
part of the per-chunk classification.) -/
structure ParserState where
  buffer : String
deriving DecidableEq, Repr

/-- A fresh parser. -/
def parserInit : ParserState := ⟨""⟩

/-- The events `feed` can emit for one chunk. -/
inductive ParserEvent where
  | activity
  | context_limit (context : String)
  | working (context : String)
  | input_required (ty : InputType) (context : String) (question : String)
      (options : Option (List String))
deriving DecidableEq, Repr

/-- `getRecentContext`: the last fifty lines of the buffer. -/
def getRecentContext (buffer : String) : String :=
  let lines := splitOnChar '\n' buffer.data
  ⟨joinWithChar '\n' (lines.drop (lines.length - 50))⟩

/-- `OutputParser.feed`: update the rolling buffer (capped to the last
`MAX_BUFFER_SIZE` characters), emit `activity`, then test the chunk
against the three ordered pattern families, stopping at the first hit. -/
def feed (st : ParserState) (data : String) : ParserState × List ParserEvent :=
  let b0 := st.buffer ++ data
  let buf : String :=
    if b0.data.length > MAX_BUFFER_SIZE then ⟨b0.data.drop (b0.data.length - MAX_BUFFER_SIZE)⟩
    else b0
  let events :=
    if matchContextLimit data then [ParserEvent.context_limit (getRecentContext buf)]
    else if matchWorking data then [ParserEvent.working data]
    else
      match findInputType data.data with
      | some ty =>
        [ParserEvent.input_required ty (getRecentContext buf) (extractQuestion data)
          (optionsFor ty data)]
      | none => []
  (⟨buf⟩, ParserEvent.activity :: events)

/- ### ClaudeSession screen-capture pipeline
(src/packages/daemon/src/session/ClaudeSession.ts) -/

/-- Post-processing of a raw `capture-pane` result inside `captureScreen`:
split into rows, trim each row's trailing whitespace, re-join, and collapse
a trailing run of newlines to a single one (regex `\n+$` replaced by a
newline). -/
def postProcessScreen (raw : String) : String :=
  let rows := (splitOnChar '\n' raw.data).map trimEndL
  let joined := joinWithChar '\n' rows
  let k := (joined.reverse.takeWhile (· = '\n')).length
  if k = 0 then ⟨joined⟩ else ⟨(joined.reverse.drop k).reverse ++ ['\n']⟩

/-- The cursor-position escape sequence appended to an emitted screen. -/
def cursorSeq (cursorY cursorX : Nat) : String :=
  "\x1b[" ++ toString (cursorY + 1) ++ ";" ++ toString (cursorX + 1) ++ "H"

/-- What one round of tmux calls inside `captureScreen` returns: the raw
pane bytes and the cursor position (already defaulted to zero on a failed
cursor query, as the source does). -/
structure CaptureInput where
  raw : String
  cursorY : Nat
  cursorX : Nat
deriving DecidableEq, Repr

/-- The session state driving the capture pipeline. -/
structure SessState where
  hasReceivedResize : Bool
  lastEmittedScreen : String
deriving DecidableEq, Repr

/-- A freshly constructed session. -/
def sessInit : SessState := ⟨false, ""⟩

/-- An `output_update` message as seen by a client (the hub forwards the
session's `output` event verbatim as `output_update`, and answers
`get_output` with an `output_update` as well). -/
inductive SessionEvt where
  | outputUpdate (content : String)
deriving DecidableEq, Repr

/-- `ClaudeSession.captureScreen` (with the two tmux calls supplied as the
`cap` oracle): post-process, compare with `lastEmittedScreen`, and emit
the screen followed by the cursor escape only on change. -/
def captureScreen (st : SessState) (cap : CaptureInput) : SessState × List SessionEvt :=
  let screen := postProcessScreen cap.raw
  if screen ≠ st.lastEmittedScreen then
    ({ st with lastEmittedScreen := screen },
      [SessionEvt.outputUpdate (screen ++ cursorSeq cap.cursorY cap.cursorX)])
  else (st, [])

/-- The operations that can reach a session's capture pipeline or produce
an `output_update` for it. `activity` is a classifier `activity` event
whose debounced capture would observe `cap`; `resizeTerminal` is the
client `resize_terminal` request (its delayed capture observes `cap`);
`getOutput` is the client `get_output` request, answered from
`getRecentOutput`, whose `capture-pane` output is the `raw` oracle. -/
inductive SessOp where
  | activity (cap : CaptureInput)
  | resizeTerminal (cols rows : Nat) (cap : CaptureInput)
  | getOutput (raw : String)
deriving DecidableEq, Repr

/-- Is the operation a `resize_terminal`? -/
def SessOp.isResize : SessOp → Bool
  | SessOp.resizeTerminal _ _ _ => true
  | _ => false

/-- Is the operation a `get_output` request? -/
def SessOp.isGetOutput : SessOp → Bool
  | SessOp.getOutput _ => true
  | _ => false

/-- One step of the session/hub machinery for the operations above.
`activity` schedules a capture only when `hasReceivedResize` is set;
`resize` sets `hasReceivedResize`, clears `lastEmittedScreen` and forces a
capture; `get_output` for an existing session replies with the raw recent
output unconditionally (`WebSocketServerWrapper.handleGetOutput`). -/
def sessStep (st : SessState) (op : SessOp) : SessState × List SessionEvt :=
  match op with
  | SessOp.activity cap =>
    if st.hasReceivedResize then captureScreen st cap else (st, [])
  | SessOp.resizeTerminal _ _ cap =>
    captureScreen { st with hasReceivedResize := true, lastEmittedScreen := "" } cap
  | SessOp.getOutput raw => (st, [SessionEvt.outputUpdate raw])

/-- Run a trace of operations, collecting every emitted `output_update`. -/
def runSess (st : SessState) : List SessOp → List SessionEvt
  | [] => []
  | op :: ops =>
    let r := sessStep st op
    r.2 ++ runSess r.1 ops

/- ### TokenAuth (src/packages/daemon/src/auth/TokenAuth.ts) -/

/-- `validateToken`: the stored token is the config-table row (if any);
`crypto.timingSafeEqual(Buffer.from(stored), Buffer.from(token))` compares
the UTF-8 byte strings when their lengths agree and throws a `RangeError`
when they do not, which this embedding models with `Except`. -/
def validateToken (stored : Option String) (token : String) : Except String Bool :=
  match stored with
  | none => Except.ok false
  | some st =>
    if st.utf8ByteSize = token.utf8ByteSize then Except.ok (st == token)
    else Except.error "RangeError: Input buffers must have the same byte length"

/- ### Client hub (WebSocketServerWrapper) -/

/-- The per-client record the hub keeps. -/
structure HubClient where
  authenticated : Bool
  cols : Nat
  rows : Nat
deriving DecidableEq, Repr

/-- A fresh connection. -/
def hubClientInit : HubClient := ⟨false, 0, 0⟩

/-- Daemon-to-client messages relevant here (payloads beyond what the
claims inspect are elided). -/
inductive ServerMsg where
  | authResult (success : Bool)
  | pong
  | capabilities
  | sessionsList
  | outputUpdateMsg
  | sessionUpdated
  | directoryListing
  | errorMsg (message : String)
deriving DecidableEq, Repr

/-- The kinds of session operations the dispatch switch can invoke. -/
inductive SessionOpKind where
  | create
  | kill
  | restart
  | sendInputOp
  | sendCommand
  | changeModel
  | toggleMode
  | sendKey
  | resize
  | browse
  | readOutput
deriving DecidableEq, Repr

/-- Observable effects of handling one inbound message. -/
inductive HubEffect where
  | send (m : ServerMsg)
  | closeChannel
  | sessionEffect (k : SessionOpKind)
deriving DecidableEq, Repr

/-- Client-to-daemon messages (payloads reduced to what dispatch reads). -/
inductive ClientMsg where
  | auth (token : String)
  | ping
  | getSessions
  | getOutput (sessionId : String)
  | createSession (projectPath : String)
  | killSession (sessionId : String)
  | restartSession (sessionId : String) (withSummary : Bool)
  | sendInputMsg (sessionId input : String)
  | sendCommand (sessionId command : String)
  | changeModel (sessionId model : String)
  | toggleMode (sessionId mode : String) (enabled : Bool)
  | sendKey (sessionId key : String)
  | resizeTerminal (sessionId : String) (cols rows : Nat)
  | browseDirectory (path : String)
deriving DecidableEq, Repr

/-- Is this an `auth` message? -/
def ClientMsg.isAuth : ClientMsg → Bool
  | ClientMsg.auth _ => true
  | _ => false

/-- `WebSocketServerWrapper.handleMessage`, with the bodies of the
authenticated per-tag handlers abstracted to the session effect (and
reply) they perform; `Except.error` models a thrown exception escaping
`handleMessage` together with the effects already performed. The only
modelled throw site is `validateToken` inside `handleAuth`. -/
def dispatch (stored : Option String) (client : HubClient) (msg : ClientMsg) :
    Except (HubClient × List HubEffect) (HubClient × List HubEffect) :=
  if !client.authenticated && !msg.isAuth then
    Except.ok (client, [HubEffect.send (ServerMsg.errorMsg "Not authenticated"),
      HubEffect.closeChannel])
  else
    match msg with
    | ClientMsg.auth token =>
      match validateToken stored token with
      | Except.error _ => Except.error (client, [])
      | Except.ok true =>
        Except.ok ({ client with authenticated := true },
          [HubEffect.send (ServerMsg.authResult true),
            HubEffect.send ServerMsg.capabilities,
            HubEffect.send ServerMsg.sessionsList])
      | Except.ok false =>
        Except.ok (client, [HubEffect.send (ServerMsg.authResult false),
          HubEffect.closeChannel])
    | ClientMsg.ping => Except.ok (client, [HubEffect.send ServerMsg.pong])
    | ClientMsg.getSessions => Except.ok (client, [HubEffect.send ServerMsg.sessionsList])
    | ClientMsg.getOutput _ =>
      Except.ok (client, [HubEffect.sessionEffect SessionOpKind.readOutput,
        HubEffect.send ServerMsg.outputUpdateMsg])
    | ClientMsg.createSession _ =>
      Except.ok (client, [HubEffect.sessionEffect SessionOpKind.create])
    | ClientMsg.killSession _ =>
      Except.ok (client, [HubEffect.sessionEffect SessionOpKind.kill])
    | ClientMsg.restartSession _ _ =>
      Except.ok (client, [HubEffect.sessionEffect SessionOpKind.restart])
    | ClientMsg.sendInputMsg _ _ =>
      Except.ok (client, [HubEffect.sessionEffect SessionOpKind.sendInputOp])
    | ClientMsg.sendCommand _ _ =>
      Except.ok (client, [HubEffect.sessionEffect SessionOpKind.sendCommand])
    | ClientMsg.changeModel _ _ =>
      Except.ok (client, [HubEffect.sessionEffect SessionOpKind.changeModel])
    | ClientMsg.toggleMode _ _ _ =>
      Except.ok (client, [HubEffect.sessionEffect SessionOpKind.toggleMode])
    | ClientMsg.sendKey _ _ =>
      Except.ok (client, [HubEffect.sessionEffect SessionOpKind.sendKey])
    | ClientMsg.resizeTerminal _ cols rows =>
      Except.ok ({ client with cols := cols, rows := rows },
        [HubEffect.sessionEffect SessionOpKind.resize])
    | ClientMsg.browseDirectory _ =>
      Except.ok (client, [HubEffect.sessionEffect SessionOpKind.browse,
        HubEffect.send ServerMsg.directoryListing])

/-- The `ws.on('message')` wrapper: a thrown exception is caught and
answered with `error "Invalid message format"`. -/
def onMessage (stored : Option String) (client : HubClient) (msg : ClientMsg) :
    HubClient × List HubEffect :=
  match dispatch stored client msg with
  | Except.ok r => r
  | Except.error (c, effs) =>
    (c, effs ++ [HubEffect.send (ServerMsg.errorMsg "Invalid message format")])

/- ### Supervisor (runSupervisor in the CLI) -/

/-- `MIN_RESTART_INTERVAL_MS`. -/
def MIN_RESTART_INTERVAL_MS : Nat := 5000

/-- `MAX_RESTART_DELAY_MS`. -/
def MAX_RESTART_DELAY_MS : Nat := 60000

/-- The quick-death counter update on an unexpected daemon exit with the
given uptime in milliseconds. -/
def updateQuickDeaths (quickDeaths uptime : Nat) : Nat :=
  if uptime < MIN_RESTART_INTERVAL_MS then quickDeaths + 1 else 0

/-- The backoff delay computed after the counter update. -/
def restartDelay (quickDeaths : Nat) : Nat :=
  min (1000 * 2 ^ quickDeaths) MAX_RESTART_DELAY_MS

/-- One unexpected-exit step of the supervisor: the updated counter and
the delay waited before the respawn. -/
def superviseStep (quickDeaths uptime : Nat) : Nat × Nat :=
  let c := updateQuickDeaths quickDeaths uptime
  (c, restartDelay c)

/- ### Session records and the database round trip
(SessionManager.ts and db/database.ts) -/

/-- The shared `SessionType` union. -/
inductive SessionType where
  | claude
  | shell
deriving DecidableEq, Repr

/-- The string stored in the `session_type` column. -/
def encodeSessionType : SessionType → String
  | SessionType.claude => "claude"
  | SessionType.shell => "shell"

/-- Interpretation of the `session_type` column on rediscovery: the TS
cast keeps the stored string, and the `?? 'claude'` default covers a
missing value; the column is `NOT NULL DEFAULT 'claude'`. -/
def decodeSessionType (s : String) : SessionType :=
  if s = "shell" then SessionType.shell else SessionType.claude

/-- The shared `SessionConfig` interface (optional fields as `Option`). -/
structure SessionConfig where
  projectPath : String
  model : Option String
  planMode : Option Bool
  autoAccept : Option Bool
  sessionType : Option SessionType
deriving DecidableEq, Repr

/-- `DEFAULT_MODEL` from the capabilities module. -/
def DEFAULT_MODEL : String := "opus"

/-- `Required<SessionConfig>` as completed by the `ClaudeSession`
constructor. -/
structure FullConfig where
  projectPath : String
  model : String
  planMode : Bool
  autoAccept : Bool
  sessionType : SessionType
deriving DecidableEq, Repr

/-- The defaulting performed by the `ClaudeSession` constructor. -/
def completeConfig (c : SessionConfig) : FullConfig :=
  { projectPath := c.projectPath
    model := c.model.getD DEFAULT_MODEL
    planMode := c.planMode.getD false
    autoAccept := c.autoAccept.getD false
    sessionType := c.sessionType.getD SessionType.claude }

/-- A constructed session: its id and completed config (the fields
`getInfo` reports for the attributes of claim C7). -/
structure SessionM where
  id : String
  config : FullConfig
deriving DecidableEq, Repr

/-- `new ClaudeSession(config, id)`. -/
def mkClaudeSession (c : SessionConfig) (id : String) : SessionM :=
  ⟨id, completeConfig c⟩

/-- The columns of a `sessions` row written by `insertSession` that the
round trip of claim C7 concerns. -/
structure SessionRowM where
  id : String
  project_path : String
  model : String
  plan_mode : Nat
  auto_accept : Nat
  state : String
  session_type : String
deriving DecidableEq, Repr

/-- The row `SessionManager.createSession` passes to `insertSession`. -/
def rowOfNewSession (s : SessionM) (state : String) : SessionRowM :=
  { id := s.id
    project_path := s.config.projectPath
    model := s.config.model
    plan_mode := if s.config.planMode then 1 else 0
    auto_accept := if s.config.autoAccept then 1 else 0
    state := state
    session_type := encodeSessionType s.config.sessionType }

/-- The `SessionConfig` that `rediscoverSessions` rebuilds from a stored
row. -/
def configOfRow (r : SessionRowM) : SessionConfig :=
  { projectPath := r.project_path
    model := some r.model
    planMode := some (r.plan_mode == 1)
    autoAccept := some (r.auto_accept == 1)
    sessionType := some (decodeSessionType r.session_type) }

/-- The tmux session name of a session id. -/
def tmuxNameOf (id : String) : String := "ccremote-" ++ id

/-- `tmuxName.replace('ccremote-', '')` in `rediscoverSessions`. -/
def sessionIdOfTmuxName (name : String) : String :=
  ⟨replaceFirst ("ccremote-" : String).data [] name.data⟩

/- ### POSIX path resolution (node:path as used by fileHandlers.ts) -/

/-- Path components: the non-empty chunks between slashes. -/
def splitPath (s : List Char) : List (List Char) :=
  (splitOnChar '/' s).filter (fun x => x ≠ [])

/-- One step of POSIX normalization of an absolute component list:
`.` is dropped, `..` pops (a no-op at the root), anything else is kept. -/
def normStep (acc : List (List Char)) (c : List Char) : List (List Char) :=
  if c = ['.'] then acc else if c = ['.', '.'] then acc.dropLast else acc ++ [c]

/-- POSIX normalization of the component list of an absolute path. -/
def normComps (cs : List (List Char)) : List (List Char) := cs.foldl normStep []

/-- Reassemble an absolute path from its normalized components. -/
def joinAbs (cs : List (List Char)) : List Char := '/' :: joinWithChar '/' cs

/-- `path.posix.resolve(s)` of a single absolute path. -/
def normAbs (s : List Char) : List Char := joinAbs (normComps (splitPath s))

/-- `path.posix.resolve(base, p)` with `base` absolute: an absolute `p`
wins, otherwise `p` is resolved under `base`. -/
def pathResolve (base p : List Char) : List Char :=
  if p.head? = some '/' then normAbs p
  else joinAbs (normComps (splitPath base ++ splitPath p))

/-- Length of the longest common prefix of two component lists. -/
def commonLen : List (List Char) → List (List Char) → Nat
  | a :: as, b :: bs => if a = b then commonLen as bs + 1 else 0
  | _, _ => 0

/-- `path.posix.relative(base, target)` with both arguments absolute:
resolve both, drop the common components, then one `..` per remaining
`base` component followed by the remaining `target` components. -/
def pathRelative (base target : List Char) : List Char :=
  let f := normComps (splitPath base)
  let t := normComps (splitPath target)
  let k := commonLen f t
  joinWithChar '/' (List.replicate (f.length - k) ['.', '.'] ++ t.drop k)

/- ### File handlers (src/packages/daemon/src/server/fileHandlers.ts) -/

/-- `validatePathInProject`: resolve the target under the project root and
refuse it when the relative path from the root starts with `..` or `/`. -/
def validatePathInProject (projectPath targetPath : String) : Option String :=
  let resolved := pathResolve projectPath.data targetPath.data
  let rel := pathRelative projectPath.data resolved
  if ['.', '.'].isPrefixOf rel || ['/'].isPrefixOf rel then none
  else some ⟨resolved⟩

/-- The project-root form with a trailing separator (the root `/` already
ends in one). -/
def withSepL (l : List Char) : List Char := if l = ['/'] then l else l ++ ['/']

/-- `MAX_FILE_SIZE` (1 MiB). -/
def MAX_FILE_SIZE : Nat := 1048576

/-- The shared `FileListingEntry`. -/
structure FileListingEntry where
  name : String
  isDirectory : Bool
  size : Nat
deriving DecidableEq, Repr

/-- Result of `listDirectory`. -/
structure ListResult where
  path : String
  entries : List FileListingEntry
  error : Option String
deriving DecidableEq, Repr

/-- The comparator `listDirectory` sorts with: directories first, then
case-insensitive name order. -/
def entryLE (a b : FileListingEntry) : Bool :=
  if a.isDirectory ≠ b.isDirectory then a.isDirectory
  else decide ((⟨lowChars a.name.data⟩ : String) ≤ ⟨lowChars b.name.data⟩)

/-- The filesystem is a map from absolute file paths to contents;
directories are left to the syscall oracles. -/
def Fs : Type := String → Option String

/-- `listDirectory`: validate (an empty target falls back to the project
root), read the directory through the `readdir` oracle, sort, and fill in
file sizes through the `stat` oracle (a failed `stat` leaves size 0). -/
def listDirectory (readdir : String → Except String (List (String × Bool)))
    (statSize : String → Option Nat) (projectPath targetPath : String) : ListResult :=
  match validatePathInProject projectPath
      (if targetPath = "" then projectPath else targetPath) with
  | none => ⟨targetPath, [], some "Ruta fuera del proyecto"⟩
  | some resolvedPath =>
    match readdir resolvedPath with
    | Except.error _ => ⟨resolvedPath, [], some "No se puede leer el directorio"⟩
    | Except.ok des =>
      let entries := (des.map (fun d => FileListingEntry.mk d.1 d.2 0)).mergeSort entryLE
      let entries := entries.map fun e =>
        if e.isDirectory then e
        else { e with size :=
          (statSize ⟨pathResolve resolvedPath.data e.name.data⟩).getD 0 }
      ⟨resolvedPath, entries, none⟩

/-- Result of `readFileContent`. -/
structure ReadResult where
  path : String
  content : String
  error : Option String
deriving DecidableEq, Repr

/-- `readFileContent`: validate, `stat` (size cap 1 MiB), then read. -/
def readFileContent (statSize : String → Except String Nat)
    (readFile : String → Except String String)
    (projectPath filePath : String) : ReadResult :=
  match validatePathInProject projectPath filePath with
  | none => ⟨filePath, "", some "Ruta fuera del proyecto"⟩
  | some resolved =>
    match statSize resolved with
    | Except.error e => ⟨resolved, "", some ("No se puede leer: " ++ e)⟩
    | Except.ok size =>
      if size > MAX_FILE_SIZE then
        ⟨resolved, "", some "Archivo demasiado grande (max 1MB)"⟩
      else
        match readFile resolved with
        | Except.error e => ⟨resolved, "", some ("No se puede leer: " ++ e)⟩
        | Except.ok content => ⟨resolved, content, none⟩

/-- Result of the mutating file operations. -/
structure WriteResult where
  path : String
  success : Bool
  error : Option String
deriving DecidableEq, Repr

/-- `writeFileContent`: validate, enforce the 1 MiB cap on the UTF-8 byte
length, then write (the `writeOk` oracle decides whether the `writeFile`
syscall succeeds). -/
def writeFileContent (writeOk : String → Bool) (fs : Fs)
    (projectPath filePath content : String) : WriteResult × Fs :=
  match validatePathInProject projectPath filePath with
  | none => (⟨filePath, false, some "Ruta fuera del proyecto"⟩, fs)
  | some resolved =>
    if content.utf8ByteSize > MAX_FILE_SIZE then
      (⟨resolved, false, some "Contenido demasiado grande (max 1MB)"⟩, fs)
    else if writeOk resolved then
      (⟨resolved, true, none⟩,
        fun q => if q = resolved then some content else fs q)
    else (⟨resolved, false, some "No se puede escribir: EACCES"⟩, fs)

/-- Is `q` the path `p` itself or a path strictly below it? -/
def underPath (p q : String) : Bool :=
  q == p || (p.data ++ ['/']).isPrefixOf q.data

/-- `deleteFile`: validate, refuse the project root, `stat`, then
`rm` recursively (the `rmOk` oracle decides syscall success). -/
def deleteFile (statIsDir : String → Except String Bool) (rmOk : String → Bool)
    (fs : Fs) (projectPath filePath : String) : WriteResult × Fs :=
  match validatePathInProject projectPath filePath with
  | none => (⟨filePath, false, some "Ruta fuera del proyecto"⟩, fs)
  | some resolved =>
    if normAbs resolved.data = normAbs projectPath.data then
      (⟨resolved, false, some "No se puede eliminar la raíz del proyecto"⟩, fs)
    else
      match statIsDir resolved with
      | Except.error e => (⟨resolved, false, some ("No se puede eliminar: " ++ e)⟩, fs)
      | Except.ok _ =>
        if rmOk resolved then
          (⟨resolved, true, none⟩, fun q => if underPath resolved q then none else fs q)
        else (⟨resolved, false, some "No se puede eliminar: EACCES"⟩, fs)

/-- Result of `createFile` / `createDirectory` (the `isDirectory` flag of
the source result is determined by which function ran). -/
structure CreateResult where
  path : String
  success : Bool
  error : Option String
deriving DecidableEq, Repr

/-- `createFile`: validate, refuse an existing target (the `exists`
check is the `access` oracle), then `mkdir -p` the parent and write an
empty file. -/
def createFile (accessOk : String → Bool) (writeOk : String → Bool) (fs : Fs)
    (projectPath filePath : String) : CreateResult × Fs :=
  match validatePathInProject projectPath filePath with
  | none => (⟨filePath, false, some "Ruta fuera del proyecto"⟩, fs)
  | some resolved =>
    if accessOk resolved then
      (⟨resolved, false, some "Ya existe un archivo con ese nombre"⟩, fs)
    else if writeOk resolved then
      (⟨resolved, true, none⟩, fun q => if q = resolved then some "" else fs q)
    else (⟨resolved, false, some "No se puede crear: EACCES"⟩, fs)

/-- `createDirectory`: validate, refuse an existing target, then
`mkdir -p` (directories are not tracked in the file map). -/
def createDirectory (accessOk : String → Bool) (mkdirOk : String → Bool) (fs : Fs)
    (projectPath dirPath : String) : CreateResult × Fs :=
  match validatePathInProject projectPath dirPath with
  | none => (⟨dirPath, false, some "Ruta fuera del proyecto"⟩, fs)
  | some resolved =>
    if accessOk resolved then
      (⟨resolved, false, some "Ya existe una carpeta con ese nombre"⟩, fs)
    else if mkdirOk resolved then (⟨resolved, true, none⟩, fs)
    else (⟨resolved, false, some "No se puede crear: EACCES"⟩, fs)

/-- Result of `renameFile`. -/
structure RenameResult where
  oldPath : String
  newPath : String
  success : Bool
  error : Option String
deriving DecidableEq, Repr

/-- Remap a path below `newP` to the corresponding path below `oldP`. -/
def remapUnder (newP oldP q : String) : String :=
  if q = newP then oldP
  else ⟨oldP.data ++ q.data.drop newP.data.length⟩

/-- `renameFile`: validate both paths, refuse the project root as source,
refuse an existing target, then `rename` (moving the subtree). -/
def renameFile (accessOk : String → Bool) (renameOk : String → Bool) (fs : Fs)
    (projectPath oldPath newPath : String) : RenameResult × Fs :=
  match validatePathInProject projectPath oldPath,
      validatePathInProject projectPath newPath with
  | none, _ => (⟨oldPath, newPath, false, some "Ruta fuera del proyecto"⟩, fs)
  | some _, none => (⟨oldPath, newPath, false, some "Ruta fuera del proyecto"⟩, fs)
  | some resolvedOld, some resolvedNew =>
    if normAbs resolvedOld.data = normAbs projectPath.data then
      (⟨resolvedOld, resolvedNew, false,
        some "No se puede renombrar la raíz del proyecto"⟩, fs)
    else if accessOk resolvedNew then
      (⟨resolvedOld, resolvedNew, false, some "Ya existe un archivo con ese nombre"⟩, fs)
    else if renameOk resolvedOld then
      (⟨resolvedOld, resolvedNew, true, none⟩,
        fun q =>
          if underPath resolvedNew q then fs (remapUnder resolvedNew resolvedOld q)
          else if underPath resolvedOld q then none
          else fs q)
    else (⟨resolvedOld, resolvedNew, false, some "No se puede renombrar: EACCES"⟩, fs)

/- ### Helper lemmas -/

theorem containsSub_iff (n h : List Char) : containsSub n h = true ↔ n <:+: h := by
  simp only [containsSub, List.any_eq_true, List.mem_tails, List.isPrefixOf_iff_prefix]
  constructor
  · rintro ⟨t, ht, hp⟩
    exact hp.isInfix.trans ht.isInfix
  · rintro ⟨pre, post, rfl⟩
    exact ⟨n ++ post, ⟨pre, by simp⟩, n.prefix_append post⟩

theorem lowChars_infix {n h : List Char} (hn : n <:+: h) : lowChars n <:+: lowChars h :=
  hn.map Char.toLower

/- ### Claim theorems -/

/-- C1. For every chunk fed to the output classifier, `activity` is
emitted first and at most one classification event follows; the
classification is ordered: any context-limit match yields `context_limit`
(whatever else matches), and otherwise any working match yields `working`
(whatever input patterns match). In particular a chunk containing the
substring "conversation is too long" (such as one containing both
"Thinking" and "conversation is too long") emits exactly the
context-limit classification. -/
theorem claim1_classifier_priority (st : ParserState) (data : String) :
    (∃ rest, (feed st data).2 = ParserEvent.activity :: rest ∧ rest.length ≤ 1) ∧
    (matchContextLimit data = true →
      (feed st data).2 =
        [ParserEvent.activity,
          ParserEvent.context_limit (getRecentContext (feed st data).1.buffer)]) ∧
    (matchContextLimit data = false → matchWorking data = true →
      (feed st data).2 = [ParserEvent.activity, ParserEvent.working data]) ∧
    (("conversation is too long" : String).data <:+: data.data →
      (feed st data).2 =
        [ParserEvent.activity,
          ParserEvent.context_limit (getRecentContext (feed st data).1.buffer)]) := by
  have hconv : ("conversation is too long" : String).data <:+: data.data →
      matchContextLimit data = true := by
    intro hin
    have hl : lowChars ("conversation is too long" : String).data <:+: lowChars data.data :=
      lowChars_infix hin
    have hlow : lowChars ("conversation is too long" : String).data =
        ("conversation is too long" : String).data := by decide
    rw [hlow] at hl
    have hc : containsSub ("conversation is too long" : String).data (lowChars data.data) =
        true := (containsSub_iff _ _).mpr hl
    simp [matchContextLimit, hc]
  refine ⟨?_, ?_, ?_, ?_⟩
  · refine ⟨(feed st data).2.tail, rfl, ?_⟩
    show (feed st data).2.tail.length ≤ 1
    by_cases hcl : matchContextLimit data
    · simp [feed, hcl]
    · by_cases hw : matchWorking data
      · simp [feed, hcl, hw]
      · cases hft : findInputType data.data <;> simp [feed, hcl, hw, hft]
  · intro hcl
    simp [feed, hcl]
  · intro hcl hw
    simp [feed, hcl, hw]
  · intro hin
    simp [feed, hconv hin]

/-- Witness for C1 at the spec's context-exhaustion scenario chunk. -/
theorem claim1_witness :
    ("conversation is too long" : String).data <:+:
      ("... Thinking ... conversation is too long ..." : String).data ∧
    (feed parserInit "... Thinking ... conversation is too long ...").2 =
      [ParserEvent.activity,
        ParserEvent.context_limit
          (getRecentContext
            (feed parserInit "... Thinking ... conversation is too long ...").1.buffer)] :=
  ⟨by decide,
    (claim1_classifier_priority parserInit "... Thinking ... conversation is too long ...").2.2.2
      (by decide)⟩

/-- C8 counterexample. Feeding "Do you want to proceed? (y/n)" emits one
`input_required` of type confirmation without options, but the extracted
question is the whole line "Do you want to proceed? (y/n)", which does
not end with a question mark, contradicting the claim's "ends with '?'". -/
theorem claim8_counterexample :
    (feed parserInit "Do you want to proceed? (y/n)").2 =
      [ParserEvent.activity,
        ParserEvent.input_required InputType.confirmation "Do you want to proceed? (y/n)"
          "Do you want to proceed? (y/n)" none] ∧
    ((extractQuestion "Do you want to proceed? (y/n)").data.getLast? == some '?') = false := by
  decide

/-- C8 as amended. Feeding the raw bytes "Do you want to proceed? (y/n)"
emits exactly one `input_required` event with inputType confirmation and
no options; the extracted question is the last line containing '?' or
'(y/n)' — here the entire chunk — which contains '?' but ends with ')'. -/
theorem claim8_amended :
    (feed parserInit "Do you want to proceed? (y/n)").2 =
      [ParserEvent.activity,
        ParserEvent.input_required InputType.confirmation "Do you want to proceed? (y/n)"
          "Do you want to proceed? (y/n)" none] ∧
    extractQuestion "Do you want to proceed? (y/n)" = "Do you want to proceed? (y/n)" ∧
    isQuestionLine ("Do you want to proceed? (y/n)" : String).data = true ∧
    ((extractQuestion "Do you want to proceed? (y/n)").data.getLast? == some ')') = true := by
  decide

/-- C5. For every completed capture, the post-processed pane (rows trimmed
of trailing whitespace, trailing newline run collapsed) is compared with
`lastEmittedScreen`: on a difference the state is updated and exactly one
`output` event carries the post-processed screen followed by the cursor
escape; on equality nothing is emitted, so two consecutive captures with
the same post-processed screen emit at most once. -/
theorem claim5_capture_dedup (st : SessState) (cap : CaptureInput) :
    (postProcessScreen cap.raw ≠ st.lastEmittedScreen →
      captureScreen st cap =
        ({ st with lastEmittedScreen := postProcessScreen cap.raw },
          [SessionEvt.outputUpdate
            (postProcessScreen cap.raw ++ cursorSeq cap.cursorY cap.cursorX)])) ∧
    (postProcessScreen cap.raw = st.lastEmittedScreen →
      captureScreen st cap = (st, [])) ∧
    (∀ cap2 : CaptureInput, postProcessScreen cap2.raw = postProcessScreen cap.raw →
      (captureScreen (captureScreen st cap).1 cap2).2 = []) := by
  refine ⟨fun hne => by simp [captureScreen, hne], fun heq => by simp [captureScreen, heq], ?_⟩
  intro cap2 h2
  have hlast : (captureScreen st cap).1.lastEmittedScreen = postProcessScreen cap.raw := by
    by_cases hne : postProcessScreen cap.raw = st.lastEmittedScreen
    · simp [captureScreen, hne]
    · simp [captureScreen, hne]
  have heq2 : postProcessScreen cap2.raw = (captureScreen st cap).1.lastEmittedScreen := by
    rw [h2, hlast]
  generalize (captureScreen st cap).1 = st2 at heq2 ⊢
  simp [captureScreen, heq2]

/-- Witness for C5 at a concrete capture. -/
theorem claim5_witness :
    postProcessScreen "hi  \n\n" ≠ (sessInit : SessState).lastEmittedScreen ∧
    captureScreen sessInit ⟨"hi  \n\n", 1, 2⟩ =
      ({ sessInit with lastEmittedScreen := postProcessScreen "hi  \n\n" },
        [SessionEvt.outputUpdate (postProcessScreen "hi  \n\n" ++ cursorSeq 1 2)]) :=
  ⟨by decide, (claim5_capture_dedup sessInit ⟨"hi  \n\n", 1, 2⟩).1 (by decide)⟩

/-- C9. On every unexpected daemon exit, an uptime of at least five
seconds resets the quick-death counter and a shorter one increments it;
the supervisor then waits exactly `min(1000 × 2 ^ quickDeaths, 60000)` ms
with the updated counter; after five consecutive sub-five-second exits
the delay before the next start is at least 32 seconds. -/
theorem claim9_supervisor_backoff (quickDeaths uptime : Nat) (us : List Nat) :
    (MIN_RESTART_INTERVAL_MS ≤ uptime → (superviseStep quickDeaths uptime).1 = 0) ∧
    (uptime < MIN_RESTART_INTERVAL_MS →
      (superviseStep quickDeaths uptime).1 = quickDeaths + 1) ∧
    (superviseStep quickDeaths uptime).2 =
      min (1000 * 2 ^ updateQuickDeaths quickDeaths uptime) MAX_RESTART_DELAY_MS ∧
    (us.length = 5 → (∀ u ∈ us, u < MIN_RESTART_INTERVAL_MS) →
      32000 ≤ restartDelay (us.foldl updateQuickDeaths quickDeaths)) := by
  have hfold : ∀ (l : List Nat) (c : Nat), (∀ u ∈ l, u < MIN_RESTART_INTERVAL_MS) →
      l.foldl updateQuickDeaths c = c + l.length := by
    intro l
    induction l with
    | nil => intro c _; simp
    | cons u l ih =>
      intro c hall
      have hu : u < MIN_RESTART_INTERVAL_MS := hall u (by simp)
      have := ih (c + 1) (fun v hv => hall v (by simp [hv]))
      simp [updateQuickDeaths, hu, this]
      omega
  refine ⟨?_, ?_, rfl, ?_⟩
  · intro h
    simp [superviseStep, updateQuickDeaths, Nat.not_lt.mpr h]
  · intro h
    simp [superviseStep, updateQuickDeaths, h]
  · intro hlen hall
    rw [hfold us quickDeaths hall, hlen]
    have h32 : 32000 ≤ 1000 * 2 ^ (quickDeaths + 5) := by
      have : (32 : Nat) ≤ 2 ^ (quickDeaths + 5) := by
        calc (32 : Nat) = 2 ^ 5 := by norm_num
        _ ≤ 2 ^ (quickDeaths + 5) := Nat.pow_le_pow_right (by norm_num) (by omega)
      omega
    have h60 : (32000 : Nat) ≤ MAX_RESTART_DELAY_MS := by decide
    exact le_min h32 h60

/-- Witness for C9: five consecutive instant crashes starting from a
fresh counter. -/
theorem claim9_witness :
    (MIN_RESTART_INTERVAL_MS ≤ 6000 ∧ (superviseStep 0 6000).1 = 0) ∧
    (100 < MIN_RESTART_INTERVAL_MS ∧ (superviseStep 3 100).1 = 4) ∧
    32000 ≤ restartDelay ([100, 100, 100, 100, 100].foldl updateQuickDeaths 0) :=
  ⟨⟨by decide, (claim9_supervisor_backoff 0 6000 []).1 (by decide)⟩,
    ⟨by decide, (claim9_supervisor_backoff 3 100 []).2.1 (by decide)⟩,
    (claim9_supervisor_backoff 0 0 [100, 100, 100, 100, 100]).2.2.2 (by decide)
      (by decide)⟩

/-- C3. Every inbound message from an unauthenticated client whose type
is not `auth` is answered with exactly one `error` message followed by a
channel close, and no session operation is performed. -/
theorem claim3_unauthenticated_guard (stored : Option String) (client : HubClient)
    (msg : ClientMsg) (hauth : client.authenticated = false) (hmsg : msg.isAuth = false) :
    onMessage stored client msg =
      (client, [HubEffect.send (ServerMsg.errorMsg "Not authenticated"),
        HubEffect.closeChannel]) ∧
    (∀ k, HubEffect.sessionEffect k ∉ (onMessage stored client msg).2) := by
  have h : onMessage stored client msg =
      (client, [HubEffect.send (ServerMsg.errorMsg "Not authenticated"),
        HubEffect.closeChannel]) := by
    simp [onMessage, dispatch, hauth, hmsg]
  exact ⟨h, fun k => by simp [h]⟩

/-- Witness for C3: a `ping` on a fresh connection. -/
theorem claim3_witness :
    (hubClientInit : HubClient).authenticated = false ∧
    onMessage none hubClientInit ClientMsg.ping =
      (hubClientInit, [HubEffect.send (ServerMsg.errorMsg "Not authenticated"),
        HubEffect.closeChannel]) :=
  ⟨rfl, (claim3_unauthenticated_guard none hubClientInit ClientMsg.ping rfl rfl).1⟩

/-- C4 counterexample. `validateToken` is not total: with a stored token
of four bytes, validating the one-byte token "a" propagates the
`RangeError` thrown by `crypto.timingSafeEqual` instead of returning
false. -/
theorem claim4_counterexample :
    validateToken (some "aabb") "a" =
      Except.error "RangeError: Input buffers must have the same byte length" ∧
    validateToken (some "aabb") "a" ≠ Except.ok false ∧
    validateToken (some "aabb") "a" ≠ Except.ok true :=
  ⟨rfl, fun h => Except.noConfusion h, fun h => Except.noConfusion h⟩

/-- C4 as amended. `validateToken` returns false when no token is stored;
when a token is stored and the supplied token has the same UTF-8 byte
length it returns the (constant-time) equality verdict, true exactly on
equality; when the byte lengths differ it throws a `RangeError` rather
than returning false. -/
theorem claim4_amended (stored : Option String) (token : String) :
    (stored = none → validateToken stored token = Except.ok false) ∧
    (∀ st, stored = some st → st.utf8ByteSize = token.utf8ByteSize →
      validateToken stored token = Except.ok (st == token)) ∧
    (∀ st, stored = some st → st.utf8ByteSize = token.utf8ByteSize →
      (validateToken stored token = Except.ok true ↔ st = token)) ∧
    (∀ st, stored = some st → st.utf8ByteSize ≠ token.utf8ByteSize →
      validateToken stored token =
        Except.error "RangeError: Input buffers must have the same byte length") := by
  refine ⟨fun h => by simp [h, validateToken], ?_, ?_, ?_⟩
  · rintro st rfl hlen
    simp [validateToken, hlen]
  · rintro st rfl hlen
    simp [validateToken, hlen]
  · rintro st rfl hlen
    simp [validateToken, hlen]

/-- Witness for C4 (amended) at concrete tokens. -/
theorem claim4_witness :
    validateToken none "x" = Except.ok false ∧
    (validateToken (some "tok") "tok" = Except.ok true ↔ ("tok" : String) = "tok") ∧
    validateToken (some "tok") "tak" = Except.ok false ∧
    validateToken (some "tok") "t" =
      Except.error "RangeError: Input buffers must have the same byte length" :=
  ⟨(claim4_amended none "x").1 rfl,
    (claim4_amended (some "tok") "tok").2.2.1 "tok" rfl (by decide),
    by
      rw [(claim4_amended (some "tok") "tak").2.1 "tok" rfl (by decide)]
      rfl,
    (claim4_amended (some "tok") "t").2.2.2 "tok" rfl (by decide)⟩

/-- C10 counterexample. A first `auth` message whose token has a UTF-8
byte length different from the stored token's makes `validateToken`
throw; the catch-all answers with an `error` message, the channel is not
closed, and no `auth_result` is sent — contradicting the claimed
`auth_result(false)` + close behaviour for every failing token. -/
theorem claim10_counterexample :
    onMessage (some "ab") hubClientInit (ClientMsg.auth "abcd") =
      (hubClientInit, [HubEffect.send (ServerMsg.errorMsg "Invalid message format")]) ∧
    HubEffect.closeChannel ∉ (onMessage (some "ab") hubClientInit (ClientMsg.auth "abcd")).2 ∧
    HubEffect.send (ServerMsg.authResult false) ∉
      (onMessage (some "ab") hubClientInit (ClientMsg.auth "abcd")).2 ∧
    (onMessage (some "ab") hubClientInit (ClientMsg.auth "abcd")).1.authenticated = false := by
  decide

/-- C10 as amended. When the first message is `auth` and `validateToken`
returns false (no stored token, or a same-byte-length token differing in
content), the hub replies `auth_result(success := false)` and closes the
channel, sends no `error`, leaves the client unauthenticated, and sends
neither capabilities nor the session list; when `validateToken` throws
(byte lengths differ), the hub instead sends one
`error "Invalid message format"` and does not close the channel. -/
theorem claim10_auth_failure (stored : Option String) (client : HubClient) (token : String)
    (hauth : client.authenticated = false) :
    (validateToken stored token = Except.ok false →
      onMessage stored client (ClientMsg.auth token) =
        (client, [HubEffect.send (ServerMsg.authResult false), HubEffect.closeChannel])) ∧
    (∀ e, validateToken stored token = Except.error e →
      onMessage stored client (ClientMsg.auth token) =
        (client, [HubEffect.send (ServerMsg.errorMsg "Invalid message format")])) := by
  constructor
  · intro hv
    simp [onMessage, dispatch, hauth, ClientMsg.isAuth, hv]
  · intro e hv
    simp [onMessage, dispatch, hauth, ClientMsg.isAuth, hv]

/-- Witness for C10 (amended): a same-length wrong token and a
wrong-length token against a stored token. -/
theorem claim10_witness :
    (hubClientInit : HubClient).authenticated = false ∧
    onMessage (some "tok") hubClientInit (ClientMsg.auth "tak") =
      (hubClientInit, [HubEffect.send (ServerMsg.authResult false),
        HubEffect.closeChannel]) ∧
    onMessage (some "tok") hubClientInit (ClientMsg.auth "t") =
      (hubClientInit, [HubEffect.send (ServerMsg.errorMsg "Invalid message format")]) :=
  ⟨rfl,
    (claim10_auth_failure (some "tok") hubClientInit "tak" rfl).1 rfl,
    (claim10_auth_failure (some "tok") hubClientInit "t" rfl).2
      "RangeError: Input buffers must have the same byte length" rfl⟩

/-- Stripping `pat` as the leading occurrence via JS `replace` recovers
the remainder. -/
theorem replaceFirst_cancel (x : Char) (xs post : List Char) :
    replaceFirst (x :: xs) [] ((x :: xs) ++ post) = post := by
  have hpre : ((x :: xs).isPrefixOf ((x :: xs) ++ post)) = true := by
    simp [List.isPrefixOf_iff_prefix]
  rw [List.cons_append, replaceFirst]
  rw [List.cons_append] at hpre
  rw [hpre]
  simp

/-- C7. A session persisted by `createSession` through `insertSession`
and rebuilt by the rediscovery path (row decoded back to a config, id
recovered from the tmux session name) reports identical id, projectPath,
model, planMode, autoAccept and sessionType. -/
theorem claim7_roundtrip (c : SessionConfig) (id state : String) :
    mkClaudeSession (configOfRow (rowOfNewSession (mkClaudeSession c id) state))
      (sessionIdOfTmuxName (tmuxNameOf (mkClaudeSession c id).id)) =
      mkClaudeSession c id := by
  have hid : sessionIdOfTmuxName (tmuxNameOf id) = id := by
    have hdata : (tmuxNameOf id).data = ("ccremote-" : String).data ++ id.data := by
      simp [tmuxNameOf]
    have hdrop : replaceFirst ("ccremote-" : String).data [] (tmuxNameOf id).data = id.data := by
      rw [hdata]
      exact replaceFirst_cancel 'c' ("cremote-" : String).data id.data
    simp [sessionIdOfTmuxName, hdrop]
  show SessionM.mk (sessionIdOfTmuxName (tmuxNameOf id)) _ = SessionM.mk id (completeConfig c)
  rw [hid]
  refine congrArg (SessionM.mk id) ?_
  show completeConfig (configOfRow (rowOfNewSession ⟨id, completeConfig c⟩ state)) =
    completeConfig c
  generalize completeConfig c = F
  obtain ⟨pp, m, pm, aa, ty⟩ := F
  cases pm <;> cases aa <;> cases ty <;> rfl

/-- C2 counterexample. A `get_output` request for an existing session
that has never been resized is answered with an `output_update`
(`handleGetOutput` performs no resize check), so an `output_update` can
be emitted before the first `resize_terminal`. -/
theorem claim2_counterexample :
    runSess sessInit [SessOp.getOutput "hello"] = [SessionEvt.outputUpdate "hello"] ∧
    ([SessOp.getOutput "hello"].all (fun op => !op.isResize)) = true := by
  decide

/-- C2 as amended. The activity-driven capture pipeline emits no
`output_update` before the first `resize_terminal`: any trace of activity
events on a never-resized session emits nothing; the exception is the
`get_output` request handler, which replies with an `output_update`
regardless of resize history. -/
theorem claim2_resize_gate (ops : List SessOp)
    (h : ops.all (fun op => !op.isResize && !op.isGetOutput) = true) :
    runSess sessInit ops = [] := by
  have key : ∀ (l : List SessOp) (st : SessState), st.hasReceivedResize = false →
      l.all (fun op => !op.isResize && !op.isGetOutput) = true → runSess st l = [] := by
    intro l
    induction l with
    | nil => intro st _ _; rfl
    | cons op l ih =>
      intro st hst hall
      simp only [List.all_cons, Bool.and_eq_true] at hall
      obtain ⟨⟨hop1, hop2⟩, hrest⟩ := hall
      cases op with
      | activity cap =>
        have hstep : sessStep st (SessOp.activity cap) = (st, []) := by
          simp [sessStep, hst]
        show runSess st (SessOp.activity cap :: l) = []
        simp only [runSess, hstep]
        simpa using ih st hst hrest
      | resizeTerminal cols rows cap => simp [SessOp.isResize] at hop1
      | getOutput raw => simp [SessOp.isGetOutput] at hop2
  exact key ops sessInit rfl h

/-- Witness for C2 (amended): two activity bursts on a fresh session emit
nothing. -/
theorem claim2_witness :
    runSess sessInit [SessOp.activity ⟨"x", 0, 0⟩, SessOp.activity ⟨"y", 1, 1⟩] = [] :=
  claim2_resize_gate [SessOp.activity ⟨"x", 0, 0⟩, SessOp.activity ⟨"y", 1, 1⟩] (by decide)


/- ### Path lemmas for claim C6 -/

theorem splitAux_sep (c : Char) (l : List Char) :
    splitAux c (c :: l) = ([], (splitAux c l).1 :: (splitAux c l).2) := by
  simp [splitAux]

theorem splitAux_chunk (c : Char) (x l : List Char) (hx : c ∉ x) :
    splitAux c (x ++ l) = (x ++ (splitAux c l).1, (splitAux c l).2) := by
  induction x with
  | nil => simp
  | cons y ys ih =>
    have hy : ¬ (y = c) := by rintro rfl; exact hx (by simp)
    have hys : c ∉ ys := fun h => hx (by simp [h])
    simp [splitAux, hy, ih hys]

theorem splitAux_no_sep (c : Char) (l : List Char) :
    c ∉ (splitAux c l).1 ∧ ∀ x ∈ (splitAux c l).2, c ∉ x := by
  induction l with
  | nil => simp [splitAux]
  | cons y ys ih =>
    by_cases hy : y = c
    · subst hy
      refine ⟨by simp [splitAux], ?_⟩
      intro x hx
      rw [splitAux_sep] at hx
      rcases List.mem_cons.mp hx with rfl | hx
      · exact ih.1
      · exact ih.2 x hx
    · constructor
      · intro hmem
        have he : (splitAux c (y :: ys)).1 = y :: (splitAux c ys).1 := by simp [splitAux, hy]
        rw [he] at hmem
        rcases List.mem_cons.mp hmem with rfl | hmem
        · exact hy rfl
        · exact ih.1 hmem
      · intro x hx
        have he : (splitAux c (y :: ys)).2 = (splitAux c ys).2 := by simp [splitAux, hy]
        rw [he] at hx
        exact ih.2 x hx

theorem joinWithChar_head_pre (c : Char) (x : List Char) (xs : List (List Char)) :
    x.isPrefixOf (joinWithChar c (x :: xs)) = true := by
  cases xs with
  | nil => simp [joinWithChar, List.isPrefixOf_iff_prefix]
  | cons y ys => simp [joinWithChar, List.isPrefixOf_iff_prefix]

theorem joinWithChar_append (c : Char) (f rest : List (List Char)) (hf : f ≠ [])
    (hr : rest ≠ []) :
    joinWithChar c (f ++ rest) = joinWithChar c f ++ c :: joinWithChar c rest := by
  induction f with
  | nil => exact absurd rfl hf
  | cons x fs ih =>
    cases fs with
    | nil =>
      cases rest with
      | nil => exact absurd rfl hr
      | cons r rs => simp [joinWithChar]
    | cons y ys =>
      have h2 := ih (by simp)
      simp only [List.cons_append] at h2 ⊢
      rw [joinWithChar, h2, joinWithChar]
      simp

theorem joinWithChar_ne_nil (c : Char) (x : List Char) (xs : List (List Char)) (hx : x ≠ []) :
    joinWithChar c (x :: xs) ≠ [] := by
  cases xs with
  | nil => simpa [joinWithChar] using hx
  | cons y ys => simp [joinWithChar]

theorem splitFilter_join (t : List (List Char)) (ht : ∀ x ∈ t, x ≠ [] ∧ '/' ∉ x) :
    (splitOnChar '/' (joinWithChar '/' t)).filter (fun x => x ≠ []) = t := by
  induction t with
  | nil => simp [joinWithChar, splitOnChar, splitAux]
  | cons x ts ih =>
    obtain ⟨hx0, hxs⟩ := ht x (by simp)
    cases ts with
    | nil =>
      have hs := splitAux_chunk '/' x [] hxs
      simp only [List.append_nil] at hs
      simp [joinWithChar, splitOnChar, hs, splitAux, hx0]
    | cons y ys =>
      have hs1 : joinWithChar '/' (x :: y :: ys) = x ++ '/' :: joinWithChar '/' (y :: ys) := by
        simp [joinWithChar]
      have hs2 := splitAux_chunk '/' x ('/' :: joinWithChar '/' (y :: ys)) hxs
      have hs3 := splitAux_sep '/' (joinWithChar '/' (y :: ys))
      have ih2 := ih (fun z hz => ht z (by simp [hz]))
      rw [hs1]
      have hgoal : splitOnChar '/' (x ++ '/' :: joinWithChar '/' (y :: ys)) =
          x :: splitOnChar '/' (joinWithChar '/' (y :: ys)) := by
        simp [splitOnChar, hs2, hs3]
      rw [hgoal, List.filter_cons, if_pos (by simpa using hx0)]
      congr 1

theorem splitPath_joinAbs (t : List (List Char)) (ht : ∀ x ∈ t, x ≠ [] ∧ '/' ∉ x) :
    splitPath (joinAbs t) = t := by
  unfold splitPath joinAbs
  have h1 : splitOnChar '/' ('/' :: joinWithChar '/' t) =
      [] :: splitOnChar '/' (joinWithChar '/' t) := by
    simp [splitOnChar, splitAux_sep]
  rw [h1]
  simp only [List.filter_cons]
  rw [if_neg (by simp)]
  exact splitFilter_join t ht

theorem foldl_normStep_mem (cs : List (List Char)) :
    ∀ acc x, x ∈ cs.foldl normStep acc →
      x ∈ acc ∨ (x ∈ cs ∧ x ≠ ['.'] ∧ x ≠ ['.', '.']) := by
  induction cs with
  | nil => intro acc x h; simp at h; exact Or.inl h
  | cons c cs ih =>
    intro acc x h
    simp only [List.foldl_cons] at h
    rcases ih (normStep acc c) x h with hacc | ⟨hmem, hne1, hne2⟩
    · by_cases h1 : c = ['.']
      · left; simpa [normStep, h1] using hacc
      · by_cases h2 : c = ['.', '.']
        · left
          have hd : x ∈ acc.dropLast := by simpa [normStep, h1, h2] using hacc
          exact (List.dropLast_sublist acc).subset hd
        · have hap : x ∈ acc ++ [c] := by simpa [normStep, h1, h2] using hacc
          rcases List.mem_append.mp hap with h3 | h3
          · exact Or.inl h3
          · right
            have : x = c := by simpa using h3
            subst this
            exact ⟨by simp, h1, h2⟩
    · exact Or.inr ⟨by simp [hmem], hne1, hne2⟩

theorem foldl_normStep_clean (cs : List (List Char))
    (h : ∀ x ∈ cs, x ≠ ['.'] ∧ x ≠ ['.', '.']) :
    ∀ acc, cs.foldl normStep acc = acc ++ cs := by
  induction cs with
  | nil => simp
  | cons c cs ih =>
    intro acc
    obtain ⟨h1, h2⟩ := h c (by simp)
    simp only [List.foldl_cons, normStep, if_neg h1, if_neg h2]
    rw [ih (fun x hx => h x (by simp [hx])) (acc ++ [c])]
    simp

theorem normComps_props (cs : List (List Char)) (hcs : ∀ x ∈ cs, x ≠ [] ∧ '/' ∉ x) :
    ∀ x ∈ normComps cs, (x ≠ [] ∧ '/' ∉ x) ∧ x ≠ ['.'] ∧ x ≠ ['.', '.'] := by
  intro x hx
  rcases foldl_normStep_mem cs [] x hx with h | ⟨hmem, hne⟩
  · simp at h
  · exact ⟨hcs x hmem, hne⟩

theorem normComps_idem_on (t : List (List Char))
    (h : ∀ x ∈ t, x ≠ ['.'] ∧ x ≠ ['.', '.']) : normComps t = t := by
  unfold normComps
  rw [foldl_normStep_clean t h []]
  simp

theorem splitPath_props (s : List Char) : ∀ x ∈ splitPath s, x ≠ [] ∧ '/' ∉ x := by
  intro x hx
  unfold splitPath at hx
  have hm := List.mem_filter.mp hx
  refine ⟨by simpa using hm.2, ?_⟩
  have hsp := splitAux_no_sep '/' s
  rcases List.mem_cons.mp (by simpa [splitOnChar] using hm.1) with rfl | hmem
  · exact hsp.1
  · exact hsp.2 x hmem

theorem commonLen_le_left (f t : List (List Char)) : commonLen f t ≤ f.length := by
  induction f generalizing t with
  | nil => cases t <;> simp [commonLen]
  | cons a as ih =>
    cases t with
    | nil => simp [commonLen]
    | cons b bs =>
      by_cases h : a = b
      · simpa [commonLen, h] using ih bs
      · simp [commonLen, h]

theorem take_commonLen (f t : List (List Char)) :
    t.take (commonLen f t) = f.take (commonLen f t) := by
  induction f generalizing t with
  | nil => cases t <;> simp [commonLen]
  | cons a as ih =>
    cases t with
    | nil => simp [commonLen]
    | cons b bs =>
      by_cases h : a = b
      · simp [commonLen, h, ih bs]
      · simp [commonLen, h]

theorem validate_some_inside (P p r : String)
    (h : validatePathInProject P p = some r) :
    r.data = normAbs P.data ∨ (withSepL (normAbs P.data)).isPrefixOf r.data = true := by
  obtain ⟨cs, hcs, hres⟩ : ∃ cs, (∀ x ∈ cs, x ≠ [] ∧ '/' ∉ x) ∧
      pathResolve P.data p.data = joinAbs (normComps cs) := by
    by_cases habs : p.data.head? = some '/'
    · exact ⟨splitPath p.data, splitPath_props _, by simp [pathResolve, habs, normAbs]⟩
    · refine ⟨splitPath P.data ++ splitPath p.data, ?_, by simp [pathResolve, habs]⟩
      intro x hx
      rcases List.mem_append.mp hx with hh | hh
      · exact splitPath_props _ x hh
      · exact splitPath_props _ x hh
  unfold validatePathInProject at h
  rw [hres] at h
  set t := normComps cs with htdef
  set f := normComps (splitPath P.data) with hfdef
  set k := commonLen f t with hkdef
  have hnaP : normAbs P.data = joinAbs f := by rw [hfdef]; rfl
  have htprops := normComps_props cs hcs
  have hsplit : splitPath (joinAbs t) = t := by
    rw [htdef]
    exact splitPath_joinAbs (normComps cs) (fun x hx => (htprops x hx).1)
  have hrel : pathRelative P.data (joinAbs t) =
      joinWithChar '/' (List.replicate (f.length - k) ['.', '.'] ++ t.drop k) := by
    unfold pathRelative
    rw [hsplit]
    rw [htdef]
    rw [normComps_idem_on (normComps cs) (fun x hx => (htprops x hx).2)]
  simp only [] at h
  rw [hrel] at h
  split at h
  · exact absurd h (by simp)
  · rename_i hcond
    have hdd' : ¬ (['.', '.'] <+:
        joinWithChar '/' (List.replicate (f.length - k) ['.', '.'] ++ t.drop k)) :=
      (by simpa using hcond : (¬ _ <+: _) ∧ (¬ _ <+: _)).1
    have hdd : (['.', '.'].isPrefixOf
        (joinWithChar '/' (List.replicate (f.length - k) ['.', '.'] ++ t.drop k))) = false :=
      Bool.eq_false_iff.mpr (fun hval => hdd' ((List.isPrefixOf_iff_prefix).mp hval))
    have hr : r.data = joinAbs t := by
      have h2 := Option.some.inj h
      rw [← h2]
    have hkf : k = f.length := by
      by_contra hne
      have hlt : k < f.length := lt_of_le_of_ne (hkdef ▸ commonLen_le_left f t) hne
      have hsub : f.length - k = (f.length - k - 1) + 1 := by omega
      rw [hsub, List.replicate_succ, List.cons_append] at hdd
      rw [joinWithChar_head_pre] at hdd
      exact absurd hdd (by simp)
    have hft : f ++ t.drop k = t := by
      have h1 : t.take k = f := by
        have h2 := take_commonLen f t
        rw [← hkdef] at h2
        rw [h2, hkf, List.take_length]
      calc f ++ t.drop k = t.take k ++ t.drop k := by rw [h1]
        _ = t := List.take_append_drop k t
    cases hdrop : t.drop k with
    | nil =>
      left
      have hteq : t = f := by rw [← hft, hdrop, List.append_nil]
      rw [hr, hteq, hnaP]
    | cons y ys =>
      right
      have htt : t = f ++ y :: ys := by rw [← hft, hdrop]
      by_cases hf0 : f = []
      · have h1 : normAbs P.data = ['/'] := by rw [hnaP, hf0]; rfl
        rw [h1]
        have h2 : withSepL ['/'] = ['/'] := by simp [withSepL]
        rw [h2, hr, htt, hf0]
        simp [joinAbs, List.isPrefixOf_iff_prefix]
      · obtain ⟨a, as, hfa⟩ : ∃ a as, f = a :: as := by
          cases hfc : f with
          | nil => exact absurd hfc hf0
          | cons a as => exact ⟨a, as, rfl⟩
        have hmem : a ∈ normComps (splitPath P.data) := by
          rw [← hfdef, hfa]
          simp
        have ha0 : a ≠ [] :=
          (normComps_props (splitPath P.data) (splitPath_props _) a hmem).1.1
        have hjf : joinWithChar '/' f ≠ [] := by
          rw [hfa]
          exact joinWithChar_ne_nil '/' a as ha0
        have hne1 : joinAbs f ≠ ['/'] := by
          simp only [joinAbs]
          intro hjoin
          exact hjf (by simpa using hjoin)
        have hws : withSepL (joinAbs f) = joinAbs f ++ ['/'] := by
          simp [withSepL, hne1]
        rw [hnaP, hws, hr, htt]
        have hja : joinAbs (f ++ y :: ys) =
            (joinAbs f ++ ['/']) ++ joinWithChar '/' (y :: ys) := by
          simp only [joinAbs]
          rw [joinWithChar_append '/' f (y :: ys) hf0 (by simp)]
          simp
        rw [hja]
        simp [List.isPrefixOf_iff_prefix]

/-- C6 as amended. Every path validated by `validatePathInProject` resolves
to the resolved project root itself or to a path strictly below it (root
with trailing separator as prefix); every file-CRUD operation whose input
fails validation returns an "outside project" error and leaves the
filesystem unchanged; and the escaping input "../../etc/passwd" is always
refused. -/
theorem claim6_path_confinement :
    (∀ P p r : String, validatePathInProject P p = some r →
      r.data = normAbs P.data ∨ (withSepL (normAbs P.data)).isPrefixOf r.data = true) ∧
    validatePathInProject "/tmp/proj" "../../etc/passwd" = none ∧
    (∀ rd ss P p, validatePathInProject P (if p = "" then P else p) = none →
      (listDirectory rd ss P p).error = some "Ruta fuera del proyecto" ∧
      (listDirectory rd ss P p).entries = []) ∧
    (∀ ss rf P p, validatePathInProject P p = none →
      (readFileContent ss rf P p).error = some "Ruta fuera del proyecto") ∧
    (∀ wo fs P p content, validatePathInProject P p = none →
      (writeFileContent wo fs P p content).1.success = false ∧
      (writeFileContent wo fs P p content).1.error = some "Ruta fuera del proyecto" ∧
      (writeFileContent wo fs P p content).2 = fs) ∧
    (∀ sd ro fs P p, validatePathInProject P p = none →
      (deleteFile sd ro fs P p).1.success = false ∧ (deleteFile sd ro fs P p).2 = fs) ∧
    (∀ ao wo fs P p, validatePathInProject P p = none →
      (createFile ao wo fs P p).1.success = false ∧ (createFile ao wo fs P p).2 = fs) ∧
    (∀ ao mo fs P p, validatePathInProject P p = none →
      (createDirectory ao mo fs P p).1.success = false ∧
      (createDirectory ao mo fs P p).2 = fs) ∧
    (∀ ao ro fs P po pn,
      validatePathInProject P po = none ∨ validatePathInProject P pn = none →
      (renameFile ao ro fs P po pn).1.success = false ∧
      (renameFile ao ro fs P po pn).2 = fs) := by
  refine ⟨validate_some_inside, by decide, ?_, ?_, ?_, ?_, ?_, ?_, ?_⟩
  · intro rd ss P p hv
    constructor <;> simp [listDirectory, hv]
  · intro ss rf P p hv
    simp [readFileContent, hv]
  · intro wo fs P p content hv
    refine ⟨?_, ?_, ?_⟩ <;> simp [writeFileContent, hv]
  · intro sd ro fs P p hv
    constructor <;> simp [deleteFile, hv]
  · intro ao wo fs P p hv
    constructor <;> simp [createFile, hv]
  · intro ao mo fs P p hv
    constructor <;> simp [createDirectory, hv]
  · rintro ao ro fs P po pn (h1 | h2)
    · constructor <;> simp [renameFile, h1]
    · cases hv1 : validatePathInProject P po with
      | none => constructor <;> simp [renameFile, hv1]
      | some w => constructor <;> simp [renameFile, hv1, h2]

/-- C6 counterexample. For input path "." the resolved path equals the
project root, which does not start with the root followed by a separator,
yet `listDirectory` proceeds without any error — so the claim's strict
"starts with resolved P + separator, or error" disjunction fails. -/
theorem claim6_counterexample :
    validatePathInProject "/tmp/proj" "." = some "/tmp/proj" ∧
    ((normAbs ("/tmp/proj" : String).data ++ ['/']).isPrefixOf
      ("/tmp/proj" : String).data) = false ∧
    (listDirectory (fun _ => Except.ok []) (fun _ => none) "/tmp/proj" ".").error = none ∧
    (listDirectory (fun _ => Except.ok []) (fun _ => none) "/tmp/proj" ".").path =
      "/tmp/proj" := by
  decide

/-- Witness for C6 at a contained path and at the escaping spec
scenario. -/
theorem claim6_witness :
    (("/tmp/proj/src/main.ts" : String).data = normAbs ("/tmp/proj" : String).data ∨
      (withSepL (normAbs ("/tmp/proj" : String).data)).isPrefixOf
        ("/tmp/proj/src/main.ts" : String).data = true) ∧
    ((writeFileContent (fun _ => true) (fun _ => none) "/tmp/proj" "../../etc/passwd"
        "x").1.success = false ∧
      (writeFileContent (fun _ => true) (fun _ => none) "/tmp/proj" "../../etc/passwd"
        "x").1.error = some "Ruta fuera del proyecto" ∧
      (writeFileContent (fun _ => true) (fun _ => none) "/tmp/proj" "../../etc/passwd"
        "x").2 = (fun _ => none)) :=
  ⟨claim6_path_confinement.1 "/tmp/proj" "src/main.ts" "/tmp/proj/src/main.ts" (by decide),
    claim6_path_confinement.2.2.2.2.1 (fun _ => true) (fun _ => none) "/tmp/proj"
      "../../etc/passwd" "x" (by decide)⟩

end CCRemote
